import Mathlib

/-!
Verification development for the resume-analyzer application (`src/main.py`).

The Python program is shallowly embedded: JSON values become the inductive
type `JValue`, Python dictionaries become association lists with Python's
dict semantics (`jget`, `jset`, `containsKey`), the response-normalization
pass of `analyze_resume_groq` (lines 148-195) becomes `normalizeReply` /
`process_response`, the regex `re.search(r'\x7b.*\x7d', text, re.DOTALL)`
becomes the backtracking engine `reSearchBrace`, the PDF extractor becomes
`extract_text_from_pdf` over an abstract PDF document model, and the form
submission handler of `main` (lines 270-315) becomes `submitStep` over an
explicit `SessionState`.  External collaborators (the Groq completion
endpoint, `json.loads`, `PyPDF2`) are modelled: the endpoint as an oracle
parameter, `json.loads` as the executable JSON reader `jsonLoadsObj`, and
`PyPDF2` as a page-list document model.
-/

/-- A JSON value as produced by Python's `json.loads`.  `jfloat` carries the
numeric literal text (the float's value is never inspected by the program,
only its type).  `jbool` is separate from `jint`, but note that Python's
`isinstance(b, int)` is `True` for booleans; `isPyInt` reflects that. -/
inductive JValue where
  | jnull : JValue
  | jbool : Bool → JValue
  | jint : Int → JValue
  | jfloat : String → JValue
  | jstr : String → JValue
  | jarr : List JValue → JValue
  | jobj : List (String × JValue) → JValue

/-- A Python dict with string keys, as an insertion-ordered association list. -/
abbrev JObj := List (String × JValue)

/-- Python `d.get(key)` / `d[key]`: the value stored at `key`. -/
def jget : JObj → String → Option JValue
  | [], _ => none
  | (k, v) :: rest, key => if k = key then some v else jget rest key

/-- Python `key in d`. -/
def containsKey (o : JObj) (k : String) : Bool := (jget o k).isSome

/-- Python `d[key] = v`: replace in place if present, else append. -/
def jset : JObj → String → JValue → JObj
  | [], key, v => [(key, v)]
  | (k, w) :: rest, key, v =>
    if k = key then (k, v) :: rest else (k, w) :: jset rest key v

theorem jget_jset_self (o : JObj) (k : String) (v : JValue) :
    jget (jset o k v) k = some v := by
  induction o with
  | nil => simp [jget, jset]
  | cons p rest ih =>
    obtain ⟨k', w⟩ := p
    by_cases h : k' = k
    · simp [jget, jset, h]
    · simp [jget, jset, h, ih]

theorem jget_jset_ne (o : JObj) (k k' : String) (v : JValue) (h : k ≠ k') :
    jget (jset o k v) k' = jget o k' := by
  induction o with
  | nil => simp [jget, jset, h]
  | cons p rest ih =>
    obtain ⟨k0, w⟩ := p
    by_cases h0 : k0 = k
    · subst h0
      simp [jget, jset, h]
    · by_cases h1 : k0 = k'
      · subst h1
        simp [jget, jset, Ne.symm h, ih]
      · simp [jget, jset, h0, h1, ih]

theorem containsKey_jset_self (o : JObj) (k : String) (v : JValue) :
    containsKey (jset o k v) k = true := by
  simp [containsKey, jget_jset_self]

theorem containsKey_jset_of (o : JObj) (k k' : String) (v : JValue)
    (h : containsKey o k' = true) : containsKey (jset o k v) k' = true := by
  by_cases hk : k = k'
  · subst hk; exact containsKey_jset_self o k v
  · simpa [containsKey, jget_jset_ne o k k' v hk] using h

theorem containsKey_iff (o : JObj) (k : String) :
    containsKey o k = true ↔ ∃ v, jget o k = some v := by
  simp [containsKey, Option.isSome_iff_exists]

/-- `needle` starts the character list `hay`. -/
def startsWithList : List Char → List Char → Bool
  | [], _ => true
  | _ :: _, [] => false
  | a :: as, b :: bs => a = b && startsWithList as bs

/-- `needle` occurs somewhere in `hay` (Python `sub in str`). -/
def hasSubList (needle : List Char) : List Char → Bool
  | [] => startsWithList needle []
  | b :: bs => startsWithList needle (b :: bs) || hasSubList needle bs

/-- Python's `x in container` for a string `x`, with the container an
arbitrary parsed JSON value (line 165 / 176 of `src/main.py` evaluates
`"missing_jd_keywords" not in analysis_json["keyword_analysis"]` on a value
of unknown type): key membership on a dict, `==`-element membership on a
list, substring test on a string, and a `TypeError` on every other type. -/
def pyContains (needle : String) : JValue → Except Unit Bool
  | .jobj o => .ok (containsKey o needle)
  | .jarr xs =>
    .ok (xs.any fun v => match v with
      | .jstr s => s = needle
      | _ => false)
  | .jstr s => .ok (hasSubList needle.toList s.toList)
  | _ => .error ()

/-- The program's constants (lines 31-32 of `src/main.py`). -/
def MIN_JD_LENGTH : Nat := 100

def MIN_RESUME_LENGTH : Nat := 150

/-- `required_keys` (lines 161-163). -/
def requiredKeys : List String :=
  ["match_score", "score_rationale", "key_qualifications_match",
   "missing_skills_requirements", "strengths", "areas_for_improvement",
   "suggested_resume_improvements", "keyword_analysis"]

/-- The list-defaulted keys tested on line 179. -/
def listKeys : List String :=
  ["missing_skills_requirements", "strengths", "areas_for_improvement",
   "suggested_resume_improvements"]

/-- The synthetic marker appended to `missing_keys` on line 166. -/
def dottedKey : String := "keyword_analysis.missing_jd_keywords"

/-- `missing_keys = [key for key in required_keys if key not in analysis_json]`
(line 164). -/
def missingTopKeys (o : JObj) : List String :=
  requiredKeys.filter fun k => ! containsKey o k

/-- Lines 165-168: when `keyword_analysis` is present but the membership test
for `missing_jd_keywords` comes back false, record the dotted marker (the
returned `Bool`) and, when the value is a dict, insert the empty inner list
immediately.  The membership test itself can raise a `TypeError`. -/
def kwPreStep (o : JObj) : Except Unit (JObj × Bool) :=
  match jget o "keyword_analysis" with
  | none => .ok (o, false)
  | some kv =>
    match pyContains "missing_jd_keywords" kv with
    | .error e => .error e
    | .ok true => .ok (o, false)
    | .ok false =>
      match kv with
      | .jobj inner =>
        .ok (jset o "keyword_analysis"
              (.jobj (jset inner "missing_jd_keywords" (.jarr []))), true)
      | _ => .ok (o, true)

/-- The default synthesized for a missing required key (lines 178-180):
the one-entry keyword object, the empty list, or the string `"N/A"`. -/
def defaultFor (k : String) : JValue :=
  if k = "keyword_analysis" then .jobj [("missing_jd_keywords", .jarr [])]
  else if listKeys.contains k then .jarr []
  else .jstr "N/A"

/-- Lines 174-177 of the repair loop: ensure `keyword_analysis` exists, then
re-run the membership test and perform `analysis_json["keyword_analysis"]
["missing_jd_keywords"] = []`; on a list or string value that item
assignment raises a `TypeError`. -/
def repairDottedGo (o1 : JObj) : Except Unit JObj :=
  match jget o1 "keyword_analysis" with
  | none => .ok o1
  | some kv =>
    match pyContains "missing_jd_keywords" kv with
    | .error e => .error e
    | .ok true => .ok o1
    | .ok false =>
      match kv with
      | .jobj inner =>
        .ok (jset o1 "keyword_analysis"
              (.jobj (jset inner "missing_jd_keywords" (.jarr []))))
      | _ => .error ()

def repairDotted (o : JObj) : Except Unit JObj :=
  repairDottedGo (if containsKey o "keyword_analysis" then o
                  else jset o "keyword_analysis" (.jobj []))

/-- One iteration of `for key in missing_keys` (lines 173-180). -/
def repairKey (o : JObj) (k : String) : Except Unit JObj :=
  if k = dottedKey then repairDotted o
  else .ok (jset o k (defaultFor k))

/-- The schema-validation-and-repair pass (lines 160-180), up to but not
including the `match_score` type check. -/
def repairPass (o : JObj) : Except Unit JObj := do
  let (o1, dotted) ← kwPreStep o
  let missing := missingTopKeys o ++ (if dotted then [dottedKey] else [])
  List.foldlM repairKey o1 missing

/-- Python `isinstance(v, int)`; `True` for booleans, which are an `int`
subclass in Python. -/
def isPyInt : JValue → Bool
  | .jint _ => true
  | .jbool _ => true
  | _ => false

/-- Lines 182-184: a non-integer `match_score` (including a missing one) is
overwritten with the string `"N/A"`. -/
def fixScore (o : JObj) : JObj :=
  if isPyInt ((jget o "match_score").getD .jnull) then o
  else jset o "match_score" (.jstr "N/A")

/-- The full normalization of a parsed reply object (lines 160-186); a
`TypeError` raised anywhere inside is an `.error`, caught by the
`except Exception` handler on line 192. -/
def normalizeReply (o : JObj) : Except Unit JObj := (repairPass o).map fixScore

/-- The greedy tail of `.*\x7d` in pattern `\x7b.*\x7d`: after the opening
brace, the star first consumes `k` characters and backtracking lowers `k`
until the next character is the closing brace, so the longest (greedy)
alternative wins.  Returns the number of characters the `.*\x7d` part
consumed. -/
def starClose (cs : List Char) : Nat → Option Nat
  | 0 =>
    match cs with
    | '}' :: _ => some 1
    | _ => none
  | k + 1 =>
    match cs.drop (k + 1) with
    | '}' :: _ => some (k + 2)
    | _ => starClose cs k

/-- Attempt to match `\x7b.*\x7d` (with `re.DOTALL`) at the head of `cs`,
returning the greedy match length. -/
def matchBraceAt : List Char → Option Nat
  | [] => none
  | c :: rest =>
    if c = '{' then (starClose rest rest.length).map (· + 1) else none

/-- `re.search(r'\x7b.*\x7d', text, re.DOTALL)` (line 150): try every start
position from the left; at the first position where the pattern matches,
return (start index, greedy match length). -/
def reSearchBrace : List Char → Option (Nat × Nat)
  | [] => none
  | c :: rest =>
    match matchBraceAt (c :: rest) with
    | some m => some (0, m)
    | none => (reSearchBrace rest).map fun p => (p.1 + 1, p.2)

/-- `json_match.group(0)` of line 150-152: the JSON candidate substring of
the raw completion text. -/
def extract_json_candidate (s : String) : Option String :=
  match reSearchBrace s.toList with
  | some (i, m) => some (String.mk ((s.toList.drop i).take m))
  | none => none

/-- Index of the first occurrence of `c`. -/
def firstIdx (c : Char) : List Char → Option Nat
  | [] => none
  | x :: xs => if x = c then some 0 else (firstIdx c xs).map (· + 1)

/-- Index of the last occurrence of `c`. -/
def lastIdx (c : Char) : List Char → Option Nat
  | [] => none
  | x :: xs =>
    match lastIdx c xs with
    | some j => some (j + 1)
    | none => if x = c then some 0 else none

/-- The candidate as the spec words it: "Locate the first `\x7b` through the
last `\x7d` in the raw text (greedy outer-brace match) and treat that
substring as a JSON candidate".  Stated independently of the regex engine;
`C4_candidate_extraction` proves the two agree on every input. -/
def candidate_spec (s : String) : Option String :=
  match firstIdx '{' s.toList, lastIdx '}' s.toList with
  | some i, some j =>
    if i < j then some (String.mk ((s.toList.drop i).take (j - i + 1)))
    else none
  | _, _ => none

/-- Outcome of one `analyze_resume_groq` call.  Each constructor corresponds
to one distinct user-visible `st.error`/`st.warning` branch of the source;
every failure constructor makes the Python function return `None`. -/
inductive AnalyzeResult where
  | noClient : AnalyzeResult
  | validationError : AnalyzeResult
  | apiError : AnalyzeResult
  | noJsonFound : AnalyzeResult
  | malformedJson : AnalyzeResult
  | processingError : AnalyzeResult
  | ok : JObj → AnalyzeResult

/-- The Python return value (`Optional[Dict]`): only a fully normalized
object is returned; every failure is `None`. -/
def AnalyzeResult.toOption : AnalyzeResult → Option JObj
  | .ok o => some o
  | _ => none

/-- Lines 148-195: regex extraction, `json.loads` (the `parse` parameter),
and normalization of the raw completion text, with the three `except`
arms mapped to their distinct failure constructors. -/
def process_response (parse : String → Option JObj) (rc : String) :
    AnalyzeResult :=
  match extract_json_candidate rc with
  | none => .noJsonFound
  | some c =>
    match parse c with
    | none => .malformedJson
    | some o =>
      match normalizeReply o with
      | .ok o2 => .ok o2
      | .error _ => .processingError

/-- JSON whitespace. -/
def jsonWs (c : Char) : Bool := c = ' ' || c = '\t' || c = '\n' || c = '\r'

def skipWs (cs : List Char) : List Char := cs.dropWhile jsonWs

/-- Body of a JSON string literal, after the opening quote: returns the
decoded characters and the remainder after the closing quote.  Covers the
single-character escapes; `\u` escapes are outside the model. -/
def parseStrBody : Nat → List Char → Option (List Char × List Char)
  | 0, _ => none
  | _ + 1, [] => none
  | fuel + 1, c :: cs =>
    if c = '"' then some ([], cs)
    else if c = '\\' then
      match cs with
      | [] => none
      | e :: cs2 =>
        let dec : Option Char :=
          if e = 'n' then some '\n' else if e = 't' then some '\t'
          else if e = 'r' then some '\r' else if e = '"' then some '"'
          else if e = '\\' then some '\\' else if e = '/' then some '/'
          else if e = 'b' then some '\x08' else if e = 'f' then some '\x0c'
          else none
        match dec with
        | some d => (parseStrBody fuel cs2).map fun p => (d :: p.1, p.2)
        | none => none
    else (parseStrBody fuel cs).map fun p => (c :: p.1, p.2)

def digitsToNat (acc : Nat) : List Char → Nat
  | [] => acc
  | c :: cs => digitsToNat (acc * 10 + (c.toNat - '0'.toNat)) cs

/-- Negate a parsed numeric value (for a leading minus sign). -/
def negJ : JValue → JValue
  | .jint n => .jint (-n)
  | .jfloat s => .jfloat ("-" ++ s)
  | v => v

/-- An unsigned JSON number: an integer, or digits-dot-digits kept as a
`jfloat` literal (exponents are outside the model). -/
def parseNumCore (cs : List Char) : Option (JValue × List Char) :=
  let ds := cs.takeWhile Char.isDigit
  let rest := cs.dropWhile Char.isDigit
  if ds.length = 0 then none
  else
    match rest with
    | '.' :: t =>
      let fs := t.takeWhile Char.isDigit
      if fs.length = 0 then none
      else
        some (.jfloat (String.mk ds ++ "." ++ String.mk fs),
              t.dropWhile Char.isDigit)
    | _ => some (.jint (Int.ofNat (digitsToNat 0 ds)), rest)

def parseNum : List Char → Option (JValue × List Char)
  | '-' :: t => (parseNumCore t).map fun p => (negJ p.1, p.2)
  | cs => parseNumCore cs

mutual

/-- One JSON value (fuel-bounded recursive descent). -/
def parseVal : Nat → List Char → Option (JValue × List Char)
  | 0, _ => none
  | fuel + 1, cs =>
    match skipWs cs with
    | [] => none
    | c :: rest =>
      if c = '"' then
        (parseStrBody (rest.length + 1) rest).map
          fun p => (.jstr (String.mk p.1), p.2)
      else if c = '{' then parseObjBody fuel (skipWs rest) []
      else if c = '[' then parseArrBody fuel (skipWs rest) []
      else if c = 't' then
        match rest with
        | 'r' :: 'u' :: 'e' :: r => some (.jbool true, r)
        | _ => none
      else if c = 'f' then
        match rest with
        | 'a' :: 'l' :: 's' :: 'e' :: r => some (.jbool false, r)
        | _ => none
      else if c = 'n' then
        match rest with
        | 'u' :: 'l' :: 'l' :: r => some (.jnull, r)
        | _ => none
      else parseNum (c :: rest)

/-- Object members, after `\x7b` and leading whitespace; duplicate keys
overwrite in place exactly as Python dict insertion does. -/
def parseObjBody : Nat → List Char → JObj → Option (JValue × List Char)
  | 0, _, _ => none
  | fuel + 1, cs, acc =>
    match cs with
    | '}' :: r => some (.jobj acc, r)
    | '"' :: r =>
      match parseStrBody (r.length + 1) r with
      | none => none
      | some (kb, r2) =>
        match skipWs r2 with
        | ':' :: r3 =>
          match parseVal fuel r3 with
          | none => none
          | some (v, r4) =>
            match skipWs r4 with
            | ',' :: r5 => parseObjBody fuel (skipWs r5) (jset acc (String.mk kb) v)
            | '}' :: r5 => some (.jobj (jset acc (String.mk kb) v), r5)
            | _ => none
        | _ => none
    | _ => none

/-- Array elements, after `[` and leading whitespace. -/
def parseArrBody : Nat → List Char → List JValue → Option (JValue × List Char)
  | 0, _, _ => none
  | fuel + 1, cs, acc =>
    match cs with
    | ']' :: r => some (.jarr acc.reverse, r)
    | _ =>
      match parseVal fuel cs with
      | none => none
      | some (v, r) =>
        match skipWs r with
        | ',' :: r2 => parseArrBody fuel (skipWs r2) (v :: acc)
        | ']' :: r2 => some (.jarr (v :: acc).reverse, r2)
        | _ => none

end

/-- Modelled from the spec: Python's standard-library `json.loads` (an
external collaborator of `src/main.py`, not repository code), specialized to
a top-level object: the whole input must be a single JSON document, and a
decode failure is `none` (a raised `json.JSONDecodeError`).  The regex
candidate always starts with `\x7b`, so a successful `json.loads` on it can
only produce a dict. -/
def jsonLoadsObj (s : String) : Option JObj :=
  match parseVal (2 * s.length + 2) s.toList with
  | some (.jobj o, rest) => if (skipWs rest).isEmpty then some o else none
  | _ => none

/-- The f-string prompt of lines 99-127, up to the resume text. -/
def promptPart1 : String :=
  "\n    Analyze the following resume against the provided job description.\n    Provide a detailed, critical, and constructive analysis.\n\n    **Resume Text:**\n    \x60\x60\x60text\n    "

/-- The prompt between the resume text and the job description. -/
def promptPart2 : String :=
  "\n    \x60\x60\x60\n\n    **Job Description:**\n    \x60\x60\x60text\n    "

/-- The prompt after the job description: the instructions and the schema
description enumerating the eight required keys. -/
def promptPart3 : String :=
  "\n    \x60\x60\x60\n\n    **Instructions:**\n    Respond ONLY with a valid JSON object. Do not include any text before or after the JSON object.\n    The JSON object must contain the following keys:\n    - \"match_score\": An integer score from 0 to 100 representing the overall alignment, considering skills, experience, keywords, and qualifications. Be realistic.\n    - \"score_rationale\": A brief string explaining the main reasons for the given match_score.\n    - \"key_qualifications_match\": A string summarizing how well the resume meets the *most critical* qualifications mentioned in the JD (use bullet points within the string, e.g., using markdown like \x27* Requirement: Matched/Partially Matched/Missing - Justification\x27).\n    - \"missing_skills_requirements\": A list of strings detailing important skills, tools, technologies, certifications, or specific experiences mentioned in the JD but *clearly missing* or insufficiently detailed in the resume. Be specific.\n    - \"strengths\": A list of strings highlighting the resume\x27s *most relevant* strengths for *this specific* job description (e.g., specific achievements, unique skill combinations, strong experience alignment).\n    - \"areas_for_improvement\": A list of strings suggesting specific, actionable areas where the resume could be improved to better match *this* JD (focus on content, clarity, impact).\n    - \"suggested_resume_improvements\": A list of strings providing concrete, actionable suggestions for *specific* changes or additions to the resume text. Examples: \"Quantify achievement X by adding metrics like Y%\", \"Add keyword Z from the JD to the summary/skills\", \"Elaborate on project A experience focusing on B technology\".\n    - \"keyword_analysis\": An object containing ONLY one list: \"missing_jd_keywords\" (important keywords from JD not found in resume). Keep the list concise (max 5-7 keywords).\n\n    Ensure all list values are strings. Ensure the entire output is a single, valid JSON object.\n    Example keyword_analysis: \x7b \"missing_jd_keywords\": [\"Data Visualization\", \"Agile Methodology\", \"Cloud Platform X\"] \x7d\n    "

/-- The Prompt Builder: pure interpolation of the resume text and the job
description into the instruction string (lines 99-127). -/
def buildPrompt (resume_text job_description : String) : String :=
  promptPart1 ++ resume_text ++ promptPart2 ++ job_description ++ promptPart3

/-- `analyze_resume_groq` (lines 86-200).  The hosted completion endpoint is
the oracle `api` mapping the prompt to a raw completion text (`none` models
an exception raised by the network call, caught on line 197); `parse` is the
`json.loads` model.  The second component records whether the network call
was evaluated at all. -/
def analyze_resume_groq (parse : String → Option JObj)
    (clientOk : Bool) (api : String → Option String)
    (resume_text job_description : String) : AnalyzeResult × Bool :=
  if clientOk = false then (.noClient, false)
  else if resume_text.length < MIN_RESUME_LENGTH
      || job_description.length < MIN_JD_LENGTH then (.validationError, false)
  else
    match api (buildPrompt resume_text job_description) with
    | none => (.apiError, true)
    | some rc => (process_response parse rc, true)

/-- One page of the PyPDF2 document model: `page.extract_text()` returns a
string or raises (the per-page `except` of line 67-68 turns a raise into a
skipped page). -/
inductive PageRead where
  | text : String → PageRead
  | fail : PageRead
deriving DecidableEq

/-- Modelled from the spec: the PyPDF2 `PdfReader` view of the uploaded
bytes (an external library): either the document structure cannot be parsed
(`unreadable` for `PdfReadError`, `unreadableOther` for any other raise) or
it yields a list of pages. -/
inductive PdfDoc where
  | unreadable : PdfDoc
  | unreadableOther : PdfDoc
  | pages : List PageRead → PdfDoc

/-- Outcome of `extract_text_from_pdf`: each failure constructor is one
distinct user-visible message branch, and every failure returns `None` in
Python. -/
inductive ExtractResult where
  | ok : String → ExtractResult
  | extractionEmpty : ExtractResult
  | extractionError : ExtractResult
  | unexpected : ExtractResult
deriving DecidableEq

/-- Python whitespace (`\s` over the ASCII range, and `str.strip`). -/
def isPySpace (c : Char) : Bool :=
  c = ' ' || c = '\t' || c = '\n' || c = '\r' || c = '\x0b' || c = '\x0c'

/-- One pass of `re.sub(r'\n\s*\n', '\n\n', text)` (line 74): at each
newline, greedily take the whitespace run that follows; if it contains
another newline, the match runs to the last newline of the run and is
replaced by exactly two newlines, scanning resuming after the match. -/
def collapseRuns : Nat → List Char → List Char
  | 0, cs => cs
  | _ + 1, [] => []
  | fuel + 1, c :: cs =>
    if c = '\n' then
      match lastIdx '\n' (cs.takeWhile isPySpace) with
      | some k => '\n' :: '\n' :: collapseRuns fuel (cs.drop (k + 1))
      | none => c :: collapseRuns fuel cs
    else c :: collapseRuns fuel cs

/-- Python `str.strip()`. -/
def pyStrip (cs : List Char) : List Char :=
  ((cs.dropWhile isPySpace).reverse.dropWhile isPySpace).reverse

/-- `re.sub(r'\n\s*\n', '\n\n', extracted_text).strip()` (line 74). -/
def cleanText (s : String) : String :=
  String.mk (pyStrip (collapseRuns s.length s.toList))

/-- `extract_text_from_pdf` (lines 52-83): concatenate the text of each
page that yields any (Python truthiness: the empty string contributes
nothing), with a newline after each contribution; an empty accumulation is
the `ExtractionEmpty` warning branch returning `None`; a `PdfReadError` is
the `ExtractionError` branch returning `None`. -/
def extract_text_from_pdf : PdfDoc → ExtractResult
  | .unreadable => .extractionError
  | .unreadableOther => .unexpected
  | .pages ps =>
    let extracted := ps.foldl
      (fun acc p =>
        match p with
        | .text t => if t = "" then acc else acc ++ t ++ "\n"
        | .fail => acc) ""
    if extracted = "" then .extractionEmpty else .ok (cleanText extracted)

/-- A page from which zero characters of text can be extracted: it yields
the empty string, or `extract_text()` raises (the page is skipped with a
warning either way). -/
def pageEmpty : PageRead → Bool
  | .text t => t = ""
  | .fail => true

/-- The user-visible messages issued by the submit handler of `main`
(lines 282-302). -/
inductive UiMsg where
  | extractedOk : UiMsg
  | extractFailed : UiMsg
  | noResume : UiMsg
  | resumeTooShort : UiMsg
  | jdTooShort : UiMsg
deriving DecidableEq

/-- `st.session_state` as used by `main` (lines 224-228). -/
structure SessionState where
  resume_text : Option String
  job_description : String
  analysis_result : Option JObj
  analysis_requested : Bool
  last_upload_name : Option String

/-- Result of one form submission: the new session state, whether the
network call was attempted, and the messages shown. -/
structure SubmitOut where
  state : SessionState
  apiCalled : Bool
  msgs : List UiMsg

/-- Lines 272-285: on submit, a freshly named upload (or one with no stored
text) is re-extracted after clearing the old result; the same file name with
stored text is left alone; no upload with no stored text is an error. -/
def handleUpload (s : SessionState) (uf : Option (String × PdfDoc)) :
    SessionState × List UiMsg :=
  match uf with
  | some (name, doc) =>
    if !(s.last_upload_name == some name) || s.resume_text.isNone then
      let newText :=
        match extract_text_from_pdf doc with
        | .ok t => some t
        | _ => none
      ({ s with analysis_result := none, analysis_requested := false,
                last_upload_name := some name, resume_text := newText },
       [match newText with
        | some t => if t = "" then .extractFailed else .extractedOk
        | none => .extractFailed])
    else (s, [])
  | none =>
    if s.resume_text.isNone then (s, [.noResume]) else (s, [])

/-- The `if submit_button:` block of `main` (lines 270-315): upload
handling, storing the typed job description, clearing the previous result,
length validation, and — only when both inputs validate — the call to
`analyze_resume_groq`. -/
def submitStep (parse : String → Option JObj) (clientOk : Bool)
    (api : String → Option String) (s : SessionState)
    (uf : Option (String × PdfDoc)) (jd_input : String) : SubmitOut :=
  let s1m := handleUpload s uf
  let s2 := { s1m.1 with job_description := jd_input }
  let s3 := { s2 with analysis_requested := true, analysis_result := none }
  let valid_jd : Bool := MIN_JD_LENGTH ≤ s3.job_description.length
  let valid_resume : Bool :=
    match s3.resume_text with
    | some t => MIN_RESUME_LENGTH ≤ t.length
    | none => false
  let m2 := (if !valid_resume then [UiMsg.resumeTooShort] else [])
    ++ (if !valid_jd then [UiMsg.jdTooShort] else [])
  if valid_resume && valid_jd then
    match s3.resume_text with
    | some t =>
      let r := analyze_resume_groq parse clientOk api t s3.job_description
      ⟨{ s3 with analysis_result := r.1.toOption }, r.2, s1m.2 ++ m2⟩
    | none => ⟨s3, false, s1m.2 ++ m2⟩
  else ⟨{ s3 with analysis_requested := false }, false, s1m.2 ++ m2⟩

/-- The single top-level key a `repairKey` iteration can write to:
the dotted marker writes (inside) `keyword_analysis`, every other key
writes itself. -/
def touchedKey (m : String) : String :=
  if m = dottedKey then "keyword_analysis" else m

/-- The parsed object's `keyword_analysis` field is absent or is itself an
object (the shapes under which the repair pass cannot raise). -/
def kwOk (o : JObj) : Prop :=
  jget o "keyword_analysis" = none ∨
  ∃ inner, jget o "keyword_analysis" = some (.jobj inner)

/-- `keyword_analysis` is an object that has the `missing_jd_keywords`
key. -/
def kwRepaired (o : JObj) : Prop :=
  ∃ inner, jget o "keyword_analysis" = some (.jobj inner) ∧
    containsKey inner "missing_jd_keywords" = true

/-- `match_score` is present and is a Python `int` or the string `"N/A"`. -/
def scoreRepaired (o : JObj) : Prop :=
  ∃ v, jget o "match_score" = some v ∧ (isPyInt v = true ∨ v = .jstr "N/A")

/-- Modelled from the spec: "ordered sequence of string" in the
`AnalysisResult` data model. -/
def isStrListB : JValue → Bool
  | .jarr xs =>
    xs.all fun v =>
      match v with
      | .jstr _ => true
      | _ => false
  | _ => false

/-- Modelled from the spec: the declared type of each required field of
`AnalysisResult` (integer-or-sentinel score, strings, string lists, and the
keyword object with its inner string list). -/
def fieldTypeOk (k : String) (v : JValue) : Bool :=
  if k = "match_score" then
    match v with
    | .jint _ => true
    | .jstr _ => true
    | _ => false
  else if k = "keyword_analysis" then
    match v with
    | .jobj inner =>
      match jget inner "missing_jd_keywords" with
      | some w => isStrListB w
      | none => false
    | _ => false
  else if listKeys.contains k then isStrListB v
  else
    match v with
    | .jstr _ => true
    | _ => false

/-- Modelled from the spec: every required field is present with its
declared type. -/
def wellTypedResult (o : JObj) : Bool :=
  requiredKeys.all fun k =>
    match jget o k with
    | some v => fieldTypeOk k v
    | none => false

theorem lastIdx_none (c : Char) :
    ∀ cs : List Char, lastIdx c cs = none → ∀ p t, cs.drop p ≠ c :: t := by
  intro cs
  induction cs with
  | nil => intro _ p t; simp
  | cons x xs ih =>
    intro h p t
    cases h' : lastIdx c xs with
    | some j => simp [lastIdx, h'] at h
    | none =>
      by_cases hx : x = c
      · simp [lastIdx, h', hx] at h
      · cases p with
        | zero =>
          simp only [List.drop_zero]
          intro he
          exact hx (by injection he)
        | succ p =>
          simp only [List.drop_succ_cons]
          exact ih h' p t

theorem lastIdx_drop (c : Char) :
    ∀ (cs : List Char) (j : Nat), lastIdx c cs = some j →
      ∃ t, cs.drop j = c :: t := by
  intro cs
  induction cs with
  | nil => intro j h; simp [lastIdx] at h
  | cons x xs ih =>
    intro j h
    cases h' : lastIdx c xs with
    | some j' =>
      have hj : j = j' + 1 := by simp [lastIdx, h'] at h; omega
      subst hj
      simp only [List.drop_succ_cons]
      exact ih j' h'
    | none =>
      by_cases hx : x = c
      · have hj : j = 0 := by simp [lastIdx, h', hx] at h; omega
        subst hj
        exact ⟨xs, by simp [hx]⟩
      · simp [lastIdx, h', hx] at h

theorem lastIdx_last (c : Char) :
    ∀ (cs : List Char) (j : Nat), lastIdx c cs = some j →
      ∀ p, j < p → ∀ t, cs.drop p ≠ c :: t := by
  intro cs
  induction cs with
  | nil => intro j h; simp [lastIdx] at h
  | cons x xs ih =>
    intro j h p hp t
    cases h' : lastIdx c xs with
    | some j' =>
      have hj : j = j' + 1 := by simp [lastIdx, h'] at h; omega
      subst hj
      cases p with
      | zero => omega
      | succ p =>
        simp only [List.drop_succ_cons]
        exact ih j' h' p (by omega) t
    | none =>
      by_cases hx : x = c
      · have hj : j = 0 := by simp [lastIdx, h', hx] at h; omega
        subst hj
        cases p with
        | zero => omega
        | succ p =>
          simp only [List.drop_succ_cons]
          exact lastIdx_none c xs h' p t
      · simp [lastIdx, h', hx] at h

theorem lastIdx_lt (c : Char) :
    ∀ (cs : List Char) (j : Nat), lastIdx c cs = some j → j < cs.length := by
  intro cs
  induction cs with
  | nil => intro j h; simp [lastIdx] at h
  | cons x xs ih =>
    intro j h
    cases h' : lastIdx c xs with
    | some j' =>
      have hj : j = j' + 1 := by simp [lastIdx, h'] at h; omega
      have := ih j' h'
      simp only [List.length_cons]
      omega
    | none =>
      by_cases hx : x = c
      · have hj : j = 0 := by simp [lastIdx, h', hx] at h; omega
        simp [hj]
      · simp [lastIdx, h', hx] at h

theorem starClose_none (cs : List Char) :
    ∀ k, (∀ p, p ≤ k → ∀ t, cs.drop p ≠ '}' :: t) → starClose cs k = none := by
  intro k
  induction k with
  | zero =>
    intro h
    simp only [starClose]
    split
    · rename_i tail
      have hx := h 0 (by omega) tail
      simp at hx
    · rfl
  | succ k ih =>
    intro h
    simp only [starClose]
    split
    · rename_i t heq
      exact absurd heq (h (k + 1) (by omega) t)
    · exact ih fun p hp t => h p (by omega) t

theorem starClose_some (cs : List Char) (j : Nat) (t : List Char)
    (hj : cs.drop j = '}' :: t) :
    ∀ k, j ≤ k → (∀ p, j < p → p ≤ k → ∀ u, cs.drop p ≠ '}' :: u) →
      starClose cs k = some (j + 1) := by
  intro k
  induction k with
  | zero =>
    intro hle _
    have hj0 : j = 0 := by omega
    subst hj0
    simp only [List.drop_zero] at hj
    subst hj
    simp [starClose]
  | succ k ih =>
    intro hle h
    simp only [starClose]
    by_cases hjk : j = k + 1
    · subst hjk
      rw [hj]
      rfl
    · have hne : ∀ u, cs.drop (k + 1) ≠ '}' :: u :=
        fun u => h (k + 1) (by omega) (by omega) u
      split
      · rename_i u heq
        exact absurd heq (hne u)
      · exact ih (by omega) fun p hp1 hp2 u => h p hp1 (by omega) u

/-- The regex engine agrees with the first-brace-to-last-brace description:
`re.search(r'\x7b.*\x7d', cs, re.DOTALL)` succeeds exactly when the first
`\x7b` strictly precedes the last `\x7d`, starts at the first `\x7b`, and
runs through the last `\x7d`. -/
theorem reSearchBrace_eq :
    ∀ cs : List Char,
      reSearchBrace cs =
        (match firstIdx '{' cs, lastIdx '}' cs with
         | some i, some j => if i < j then some (i, j - i + 1) else none
         | _, _ => none) := by
  intro cs
  induction cs with
  | nil => rfl
  | cons c rest ih =>
    by_cases hc : c = '{'
    · subst hc
      cases h' : lastIdx '}' rest with
      | some j =>
        obtain ⟨t, ht⟩ := lastIdx_drop '}' rest j h'
        have hs : starClose rest rest.length = some (j + 1) :=
          starClose_some rest j t ht rest.length
            (by have := lastIdx_lt '}' rest j h'; omega)
            (fun p hp1 _ u => lastIdx_last '}' rest j h' p hp1 u)
        simp [reSearchBrace, matchBraceAt, hs, lastIdx, firstIdx, h']
      | none =>
        have hs : starClose rest rest.length = none :=
          starClose_none rest rest.length
            (fun p _ t => lastIdx_none '}' rest h' p t)
        rw [show reSearchBrace ('{' :: rest)
            = (reSearchBrace rest).map (fun p => (p.1 + 1, p.2)) by
          simp [reSearchBrace, matchBraceAt, hs]]
        rw [ih]
        cases hf : firstIdx '{' rest <;>
          simp [firstIdx, lastIdx, h', hf]
    · have hm : matchBraceAt (c :: rest) = none := by simp [matchBraceAt, hc]
      rw [show reSearchBrace (c :: rest)
          = (reSearchBrace rest).map (fun p => (p.1 + 1, p.2)) by
        simp [reSearchBrace, hm]]
      rw [ih]
      cases hf : firstIdx '{' rest with
      | none =>
        cases hl : lastIdx '}' rest <;> by_cases hcz : c = '}' <;>
          simp [firstIdx, lastIdx, hc, hf, hl, hcz]
      | some i =>
        cases hl : lastIdx '}' rest with
        | none =>
          by_cases hcz : c = '}' <;>
            simp [firstIdx, lastIdx, hc, hf, hl, hcz]
        | some j =>
          by_cases hij : i < j
          · have h1 : i + 1 < j + 1 := by omega
            have h2 : j + 1 - (i + 1) + 1 = j - i + 1 := by omega
            simp [firstIdx, lastIdx, hc, hf, hl, hij, h1, h2]
          · have h1 : ¬ i + 1 < j + 1 := by omega
            simp [firstIdx, lastIdx, hc, hf, hl, hij, h1]

/-- The extracted candidate equals the spec-side first-to-last-brace
substring, on every input. -/
theorem extract_eq_candidate_spec (s : String) :
    extract_json_candidate s = candidate_spec s := by
  unfold extract_json_candidate candidate_spec
  rw [reSearchBrace_eq]
  cases hf : firstIdx '{' s.toList with
  | none => rfl
  | some i =>
    cases hl : lastIdx '}' s.toList with
    | none => rfl
    | some j =>
      by_cases hij : i < j <;> simp [hij]

/-- Claim C4: for every raw completion text, the JSON candidate produced by
`re.search` over `\x7b.*\x7d` is exactly the substring from the first
opening brace through the last closing brace, and when no such brace pair
exists the Normalizer reports the `NoJsonFound` failure and returns no
result object. -/
theorem C4_candidate_extraction (parse : String → Option JObj) (s : String) :
    extract_json_candidate s = candidate_spec s ∧
    (candidate_spec s = none →
      process_response parse s = .noJsonFound ∧
      (process_response parse s).toOption = none) := by
  refine ⟨extract_eq_candidate_spec s, fun h => ?_⟩
  have he : extract_json_candidate s = none :=
    (extract_eq_candidate_spec s).trans h
  constructor
  · simp [process_response, he]
  · simp [process_response, he, AnalyzeResult.toOption]

theorem C4_candidate_extraction_witness :
    process_response jsonLoadsObj "The resume is strong overall." = .noJsonFound ∧
    (process_response jsonLoadsObj "The resume is strong overall.").toOption = none :=
  (C4_candidate_extraction jsonLoadsObj "The resume is strong overall.").2 (by rfl)

/-- Claim C5: whenever the brace-delimited candidate exists but does not
parse as JSON, the Normalizer reports the `MalformedJson` failure and
returns no partial object: the failure outcome carries no fields and the
Python function returns `None`. -/
theorem C5_malformed_json (parse : String → Option JObj) (rc c : String)
    (hc : extract_json_candidate rc = some c) (hp : parse c = none) :
    process_response parse rc = .malformedJson ∧
    (process_response parse rc).toOption = none := by
  constructor
  · simp [process_response, hc, hp]
  · simp [process_response, hc, hp, AnalyzeResult.toOption]

theorem C5_malformed_json_witness :
    process_response jsonLoadsObj "Sure! \x7bnot json\x7d" = .malformedJson ∧
    (process_response jsonLoadsObj "Sure! \x7bnot json\x7d").toOption = none :=
  C5_malformed_json jsonLoadsObj "Sure! \x7bnot json\x7d" "\x7bnot json\x7d"
    (by rfl) (by rfl)

theorem repairKey_plain (o : JObj) (k : String) (h : k ≠ dottedKey) :
    repairKey o k = .ok (jset o k (defaultFor k)) := by
  simp [repairKey, h]

theorem repairDotted_cases (o o' : JObj) (h : repairDotted o = .ok o') :
    ∃ o1, (o1 = o ∨ o1 = jset o "keyword_analysis" (.jobj [])) ∧
      (o' = o1 ∨ ∃ w, o' = jset o1 "keyword_analysis" w) := by
  unfold repairDotted at h
  set o1 := if containsKey o "keyword_analysis" then o
            else jset o "keyword_analysis" (.jobj []) with ho1
  have h1 : o1 = o ∨ o1 = jset o "keyword_analysis" (.jobj []) := by
    rw [ho1]; split
    · exact Or.inl rfl
    · exact Or.inr rfl
  refine ⟨o1, h1, ?_⟩
  rw [repairDottedGo.eq_def] at h
  split at h
  · injection h with h
    exact Or.inl h.symm
  · split at h
    · exact Except.noConfusion h
    · injection h with h
      exact Or.inl h.symm
    · split at h
      · injection h with h
        exact Or.inr ⟨_, h.symm⟩
      · exact Except.noConfusion h

theorem rk_mono (o : JObj) (m : String) (o' : JObj) (k : String)
    (h : repairKey o m = .ok o') (hc : containsKey o k = true) :
    containsKey o' k = true := by
  by_cases hm : m = dottedKey
  · subst hm
    rw [repairKey, if_pos rfl] at h
    obtain ⟨o1, h1, h2⟩ := repairDotted_cases o o' h
    have hc1 : containsKey o1 k = true := by
      rcases h1 with h1 | h1 <;> subst h1
      · exact hc
      · exact containsKey_jset_of _ _ _ _ hc
    rcases h2 with h2 | ⟨w, h2⟩ <;> subst h2
    · exact hc1
    · exact containsKey_jset_of _ _ _ _ hc1
  · rw [repairKey_plain o m hm] at h
    injection h with h
    subst h
    exact containsKey_jset_of _ _ _ _ hc

theorem rk_frame (o : JObj) (m : String) (o' : JObj) (k : String)
    (h : repairKey o m = .ok o') (ht : touchedKey m ≠ k) :
    jget o' k = jget o k := by
  by_cases hm : m = dottedKey
  · subst hm
    have hkw : "keyword_analysis" ≠ k := by simpa [touchedKey] using ht
    rw [repairKey, if_pos rfl] at h
    obtain ⟨o1, h1, h2⟩ := repairDotted_cases o o' h
    have hg1 : jget o1 k = jget o k := by
      rcases h1 with h1 | h1 <;> subst h1
      · rfl
      · exact jget_jset_ne _ _ _ _ hkw
    rcases h2 with h2 | ⟨w, h2⟩ <;> subst h2
    · exact hg1
    · rw [jget_jset_ne _ _ _ _ hkw]; exact hg1
  · have hmk : m ≠ k := by simpa [touchedKey, hm] using ht
    rw [repairKey_plain o m hm] at h
    injection h with h
    subst h
    exact jget_jset_ne _ _ _ _ hmk

theorem req_ne_dotted : ∀ m ∈ requiredKeys, m ≠ dottedKey := by decide

theorem fold_present :
    ∀ (ms : List String) (o o' : JObj),
      List.foldlM repairKey o ms = .ok o' →
      ∀ k, k ≠ dottedKey → (containsKey o k = true ∨ k ∈ ms) →
        containsKey o' k = true := by
  intro ms
  induction ms with
  | nil =>
    intro o o' h k _ hor
    injection h with h
    subst h
    rcases hor with hc | hmem
    · exact hc
    · simp at hmem
  | cons m ms ih =>
    intro o o' h k hk hor
    rw [List.foldlM_cons] at h
    cases hr : repairKey o m with
    | error e => rw [hr] at h; exact Except.noConfusion h
    | ok o1 =>
      rw [hr] at h
      rcases hor with hc | hmem
      · exact ih o1 o' h k hk (Or.inl (rk_mono o m o1 k hr hc))
      · rcases List.mem_cons.mp hmem with he | hmem'
        · subst he
          rw [repairKey_plain o k hk] at hr
          injection hr with hr
          subst hr
          exact ih _ o' h k hk (Or.inl (containsKey_jset_self o k _))
        · exact ih o1 o' h k hk (Or.inr hmem')

theorem fold_frame :
    ∀ (ms : List String) (o o' : JObj) (k : String),
      List.foldlM repairKey o ms = .ok o' →
      (∀ m ∈ ms, touchedKey m ≠ k) →
      jget o' k = jget o k := by
  intro ms
  induction ms with
  | nil =>
    intro o o' k h _
    injection h with h
    subst h
    rfl
  | cons m ms ih =>
    intro o o' k h hm
    rw [List.foldlM_cons] at h
    cases hr : repairKey o m with
    | error e => rw [hr] at h; exact Except.noConfusion h
    | ok o1 =>
      rw [hr] at h
      rw [ih o1 o' k h fun m' hm' => hm m' (List.mem_cons_of_mem _ hm')]
      exact rk_frame o m o1 k hr (hm m (List.mem_cons_self _ _))

theorem fold_default :
    ∀ (ms : List String) (o o' : JObj) (k : String),
      List.foldlM repairKey o ms = .ok o' →
      k ∈ ms → k ≠ dottedKey →
      (∀ m ∈ ms, m = k ∨ touchedKey m ≠ k) →
      jget o' k = some (defaultFor k) := by
  intro ms
  induction ms with
  | nil => intro o o' k _ hmem; simp at hmem
  | cons m ms ih =>
    intro o o' k h hmem hk hms
    rw [List.foldlM_cons] at h
    cases hr : repairKey o m with
    | error e => rw [hr] at h; exact Except.noConfusion h
    | ok o1 =>
      rw [hr] at h
      by_cases hmk : m = k
      · subst hmk
        rw [repairKey_plain o m hk] at hr
        injection hr with hr
        subst hr
        by_cases hin : m ∈ ms
        · exact ih _ o' m h hin hk fun m' hm' => hms m' (List.mem_cons_of_mem _ hm')
        · have hfr := fold_frame ms _ o' m h ?_
          · rw [hfr]
            exact jget_jset_self o m _
          · intro m' hm'
            rcases hms m' (List.mem_cons_of_mem _ hm') with he | hne
            · exact absurd (he ▸ hm') hin
            · exact hne
      · have hkms : k ∈ ms := by
          rcases List.mem_cons.mp hmem with he | hm'
          · exact absurd he.symm hmk
          · exact hm'
        exact ih o1 o' k h hkms hk fun m' hm' => hms m' (List.mem_cons_of_mem _ hm')

theorem fold_kw :
    ∀ (ms : List String) (o : JObj),
      (kwRepaired o ∨ ("keyword_analysis" ∈ ms ∧ dottedKey ∉ ms)) →
      ∃ o', List.foldlM repairKey o ms = .ok o' ∧ kwRepaired o' := by
  intro ms
  induction ms with
  | nil =>
    intro o h
    rcases h with h | ⟨hmem, _⟩
    · exact ⟨o, rfl, h⟩
    · simp at hmem
  | cons m ms ih =>
    intro o h
    by_cases hmd : m = dottedKey
    · subst hmd
      have hkw : kwRepaired o := by
        rcases h with h | ⟨_, hnd⟩
        · exact h
        · exact absurd (List.mem_cons_self _ _) hnd
      obtain ⟨inner, hji, hci⟩ := hkw
      have hck : containsKey o "keyword_analysis" = true := by
        simp [containsKey, hji]
      have hrd : repairKey o dottedKey = .ok o := by
        rw [repairKey, if_pos rfl]
        unfold repairDotted
        rw [if_pos hck, repairDottedGo.eq_def, hji]
        simp [pyContains, hci]
      obtain ⟨o', h1, h2⟩ := ih o (Or.inl ⟨inner, hji, hci⟩)
      refine ⟨o', ?_, h2⟩
      rw [List.foldlM_cons, hrd]
      exact h1
    · rw [List.foldlM_cons, repairKey_plain o m hmd]
      by_cases hmk : m = "keyword_analysis"
      · subst hmk
        have hkw1 : kwRepaired (jset o "keyword_analysis"
            (defaultFor "keyword_analysis")) := by
          refine ⟨[("missing_jd_keywords", .jarr [])], ?_, by rfl⟩
          rw [jget_jset_self]
          rfl
        obtain ⟨o', h1, h2⟩ := ih _ (Or.inl hkw1)
        exact ⟨o', h1, h2⟩
      · have hnext : kwRepaired (jset o m (defaultFor m)) ∨
            ("keyword_analysis" ∈ ms ∧ dottedKey ∉ ms) := by
          rcases h with hkw | ⟨hin, hnd⟩
          · obtain ⟨inner, hji, hci⟩ := hkw
            exact Or.inl ⟨inner, by rw [jget_jset_ne _ _ _ _ hmk]; exact hji, hci⟩
          · refine Or.inr ⟨?_, fun hd => hnd (List.mem_cons_of_mem _ hd)⟩
            rcases List.mem_cons.mp hin with he | hm'
            · exact absurd he.symm hmk
            · exact hm'
        obtain ⟨o', h1, h2⟩ := ih _ hnext
        exact ⟨o', h1, h2⟩

theorem fold_ok_plain :
    ∀ (ms : List String) (o : JObj), dottedKey ∉ ms →
      ∃ o', List.foldlM repairKey o ms = .ok o' := by
  intro ms
  induction ms with
  | nil => intro o _; exact ⟨o, rfl⟩
  | cons m ms ih =>
    intro o hnd
    have hmd : m ≠ dottedKey := fun he => hnd (he ▸ List.mem_cons_self _ _)
    obtain ⟨o', h1⟩ := ih (jset o m (defaultFor m))
      fun hd => hnd (List.mem_cons_of_mem _ hd)
    refine ⟨o', ?_⟩
    rw [List.foldlM_cons, repairKey_plain o m hmd]
    exact h1

theorem fixScore_frame (o : JObj) (k : String) (hk : k ≠ "match_score") :
    jget (fixScore o) k = jget o k := by
  unfold fixScore
  split
  · rfl
  · exact jget_jset_ne _ _ _ _ (Ne.symm hk)

theorem fixScore_score (o : JObj) : scoreRepaired (fixScore o) := by
  unfold scoreRepaired
  by_cases hc : isPyInt ((jget o "match_score").getD .jnull) = true
  · have hfs : fixScore o = o := by simp [fixScore, hc]
    rw [hfs]
    cases hj : jget o "match_score" with
    | none => rw [hj] at hc; simp [isPyInt] at hc
    | some v =>
      rw [hj] at hc
      exact ⟨v, rfl, Or.inl (by simpa using hc)⟩
  · have hfs : fixScore o = jset o "match_score" (.jstr "N/A") := by
      simp [fixScore, hc]
    rw [hfs]
    exact ⟨.jstr "N/A", jget_jset_self _ _ _, Or.inr rfl⟩

theorem fixScore_contains (o : JObj) (k : String)
    (h : containsKey o k = true) : containsKey (fixScore o) k = true := by
  unfold fixScore
  split
  · exact h
  · exact containsKey_jset_of _ _ _ _ h

theorem norm_tail (o o1 o' : JObj) (dotted : Bool)
    (hfold : List.foldlM repairKey o1
      (missingTopKeys o ++ (if dotted then [dottedKey] else [])) = .ok o')
    (hkw : kwRepaired o')
    (ho1c : ∀ k, containsKey o k = true → containsKey o1 k = true)
    (hdc : dotted = true → containsKey o "keyword_analysis" = true) :
    (∀ k ∈ requiredKeys, containsKey (fixScore o') k = true) ∧
    kwRepaired (fixScore o') ∧ scoreRepaired (fixScore o') ∧
    (∀ k ∈ requiredKeys, containsKey o k = false →
      jget (fixScore o') k = some (defaultFor k)) := by
  refine ⟨?_, ?_, fixScore_score o', ?_⟩
  · intro k hk
    have hkd : k ≠ dottedKey := req_ne_dotted k hk
    apply fixScore_contains
    apply fold_present _ o1 o' hfold k hkd
    by_cases hck : containsKey o k = true
    · exact Or.inl (ho1c k hck)
    · refine Or.inr (List.mem_append_left _ ?_)
      exact List.mem_filter.mpr ⟨hk, by simp [hck]⟩
  · obtain ⟨inner, hji, hci⟩ := hkw
    exact ⟨inner, by rw [fixScore_frame o' _ (by decide)]; exact hji, hci⟩
  · intro k hk hck
    have hkd : k ≠ dottedKey := req_ne_dotted k hk
    have hkms : k ∈ missingTopKeys o ++ (if dotted then [dottedKey] else []) :=
      List.mem_append_left _ (List.mem_filter.mpr ⟨hk, by simp [hck]⟩)
    have hyp4 : ∀ m ∈ missingTopKeys o ++ (if dotted then [dottedKey] else []),
        m = k ∨ touchedKey m ≠ k := by
      intro m hm
      rcases List.mem_append.mp hm with hm1 | hm2
      · have hmreq := (List.mem_filter.mp hm1).1
        have hmd : m ≠ dottedKey := req_ne_dotted m hmreq
        by_cases hmk : m = k
        · exact Or.inl hmk
        · exact Or.inr (by simpa [touchedKey, hmd] using hmk)
      · cases dotted with
        | false => simp at hm2
        | true =>
          have hmd : m = dottedKey := by simpa using hm2
          subst hmd
          refine Or.inr ?_
          have hkwp := hdc rfl
          intro he
          rw [touchedKey, if_pos rfl] at he
          rw [← he] at hck
          rw [hkwp] at hck
          exact Bool.noConfusion hck
    have hdef : jget o' k = some (defaultFor k) :=
      fold_default _ o1 o' k hfold hkms hkd hyp4
    by_cases hkms2 : k = "match_score"
    · subst hkms2
      have hdna : defaultFor "match_score" = .jstr "N/A" := by rfl
      rw [hdna] at hdef
      rw [hdna]
      unfold fixScore
      rw [hdef]
      simp [isPyInt, jget_jset_self]
    · rw [fixScore_frame o' k hkms2]
      exact hdef

/-- The full normalization succeeds and establishes the repaired shape
whenever `keyword_analysis` is absent or is itself an object: every
required key present, the keyword object carrying its inner key,
`match_score` an int or `"N/A"`, and every omitted field set to its
default. -/
theorem normalizeReply_total (o : JObj) (h : kwOk o) :
    ∃ o2, normalizeReply o = .ok o2 ∧
      (∀ k ∈ requiredKeys, containsKey o2 k = true) ∧
      kwRepaired o2 ∧ scoreRepaired o2 ∧
      (∀ k ∈ requiredKeys, containsKey o k = false →
        jget o2 k = some (defaultFor k)) := by
  have hdreq : dottedKey ∉ requiredKeys := by decide
  rcases h with hn | ⟨inner, hj⟩
  · -- keyword_analysis absent
    have hpre : kwPreStep o = .ok (o, false) := by simp [kwPreStep, hn]
    have hkmem : "keyword_analysis" ∈ missingTopKeys o ++
        (if (false : Bool) then [dottedKey] else []) := by
      refine List.mem_append_left _ (List.mem_filter.mpr ⟨by decide, ?_⟩)
      simp [containsKey, hn]
    have hdnot : dottedKey ∉ missingTopKeys o ++
        (if (false : Bool) then [dottedKey] else []) := by
      intro hd
      rcases List.mem_append.mp hd with h1 | h2
      · exact hdreq (List.mem_filter.mp h1).1
      · simp at h2
    obtain ⟨o', hfold, hkwR⟩ := fold_kw _ o (Or.inr ⟨hkmem, hdnot⟩)
    have hnorm : normalizeReply o = .ok (fixScore o') := by
      unfold normalizeReply repairPass
      rw [hpre]
      show Except.map fixScore (List.foldlM repairKey o
        (missingTopKeys o ++ (if (false : Bool) then [dottedKey] else []))) =
        .ok (fixScore o')
      rw [hfold]
      rfl
    obtain ⟨hp1, hp2, hp3, hp4⟩ :=
      norm_tail o o o' false hfold hkwR (fun _ hc => hc) (by simp)
    exact ⟨fixScore o', hnorm, hp1, hp2, hp3, hp4⟩
  · by_cases hci : containsKey inner "missing_jd_keywords" = true
    · -- keyword object already has the inner key
      have hpre : kwPreStep o = .ok (o, false) := by
        rw [kwPreStep.eq_def, hj]
        simp [pyContains, hci]
      obtain ⟨o', hfold, hkwR⟩ :=
        fold_kw (missingTopKeys o ++ (if (false : Bool) then [dottedKey] else []))
          o (Or.inl ⟨inner, hj, hci⟩)
      have hnorm : normalizeReply o = .ok (fixScore o') := by
        unfold normalizeReply repairPass
        rw [hpre]
        show Except.map fixScore (List.foldlM repairKey o
          (missingTopKeys o ++ (if (false : Bool) then [dottedKey] else []))) =
          .ok (fixScore o')
        rw [hfold]
        rfl
      obtain ⟨hp1, hp2, hp3, hp4⟩ :=
        norm_tail o o o' false hfold hkwR (fun _ hc => hc) (by simp)
      exact ⟨fixScore o', hnorm, hp1, hp2, hp3, hp4⟩
    · -- keyword object lacking the inner key: repaired in the pre-step
      have hcif : containsKey inner "missing_jd_keywords" = false :=
        Bool.eq_false_iff.mpr hci
      have hpre : kwPreStep o = .ok (jset o "keyword_analysis"
          (.jobj (jset inner "missing_jd_keywords" (.jarr []))), true) := by
        rw [kwPreStep.eq_def, hj]
        simp [pyContains, hcif]
      have hkw1 : kwRepaired (jset o "keyword_analysis"
          (.jobj (jset inner "missing_jd_keywords" (.jarr [])))) :=
        ⟨jset inner "missing_jd_keywords" (.jarr []),
          jget_jset_self _ _ _, containsKey_jset_self _ _ _⟩
      obtain ⟨o', hfold, hkwR⟩ :=
        fold_kw (missingTopKeys o ++ (if (true : Bool) then [dottedKey] else []))
          _ (Or.inl hkw1)
      have hnorm : normalizeReply o = .ok (fixScore o') := by
        unfold normalizeReply repairPass
        rw [hpre]
        show Except.map fixScore (List.foldlM repairKey
          (jset o "keyword_analysis"
            (.jobj (jset inner "missing_jd_keywords" (.jarr []))))
          (missingTopKeys o ++ (if (true : Bool) then [dottedKey] else []))) =
          .ok (fixScore o')
        rw [hfold]
        rfl
      obtain ⟨hp1, hp2, hp3, hp4⟩ :=
        norm_tail o _ o' true hfold hkwR
          (fun k hc => containsKey_jset_of _ _ _ _ hc)
          (fun _ => by simp [containsKey, hj])
      exact ⟨fixScore o', hnorm, hp1, hp2, hp3, hp4⟩

theorem foldlM_append_except (f : JObj → String → Except Unit JObj)
    (as bs : List String) :
    ∀ o : JObj, List.foldlM f o (as ++ bs) =
      (List.foldlM f o as).bind fun o' => List.foldlM f o' bs := by
  induction as with
  | nil => intro o; rfl
  | cons a as ih =>
    intro o
    rw [List.cons_append, List.foldlM_cons, List.foldlM_cons]
    cases hf : f o a with
    | error e => rfl
    | ok o1 => exact ih o1

theorem kwPre_err (o : JObj) (v : JValue)
    (hj : jget o "keyword_analysis" = some v)
    (hp : pyContains "missing_jd_keywords" v = .error ()) :
    kwPreStep o = .error () := by
  cases v with
  | jobj inner => simp [pyContains] at hp
  | jarr xs => simp [pyContains] at hp
  | jstr s => simp [pyContains] at hp
  | jnull => simp [kwPreStep, hj, pyContains]
  | jbool b => simp [kwPreStep, hj, pyContains]
  | jint n => simp [kwPreStep, hj, pyContains]
  | jfloat s => simp [kwPreStep, hj, pyContains]

theorem kwPre_catch (o : JObj) (v : JValue)
    (hj : jget o "keyword_analysis" = some v)
    (hp : pyContains "missing_jd_keywords" v = .ok false)
    (hobj : ∀ inner, v ≠ .jobj inner) :
    kwPreStep o = .ok (o, true) := by
  cases v with
  | jobj inner => exact absurd rfl (hobj inner)
  | jnull => simp [pyContains] at hp
  | jbool b => simp [pyContains] at hp
  | jint n => simp [pyContains] at hp
  | jfloat s => simp [pyContains] at hp
  | jstr s =>
    simp [pyContains] at hp
    simp [kwPreStep, hj, pyContains, hp]
  | jarr xs =>
    simp only [pyContains, Except.ok.injEq] at hp
    simp [kwPreStep, hj, pyContains, hp]

theorem kwPre_true (o : JObj) (v : JValue)
    (hj : jget o "keyword_analysis" = some v)
    (hp : pyContains "missing_jd_keywords" v = .ok true) :
    kwPreStep o = .ok (o, false) := by
  cases v with
  | jnull => simp [pyContains] at hp
  | jbool b => simp [pyContains] at hp
  | jint n => simp [pyContains] at hp
  | jfloat s => simp [pyContains] at hp
  | jobj inner =>
    simp only [pyContains, Except.ok.injEq] at hp
    simp [kwPreStep, hj, pyContains, hp]
  | jstr s =>
    simp [pyContains] at hp
    simp [kwPreStep, hj, pyContains, hp]
  | jarr xs =>
    simp only [pyContains, Except.ok.injEq] at hp
    simp [kwPreStep, hj, pyContains, hp]

theorem repairDottedGo_catch (o1 : JObj) (v : JValue)
    (hj : jget o1 "keyword_analysis" = some v)
    (hp : pyContains "missing_jd_keywords" v = .ok false)
    (hobj : ∀ inner, v ≠ .jobj inner) :
    repairDottedGo o1 = .error () := by
  cases v with
  | jobj inner => exact absurd rfl (hobj inner)
  | jnull => simp [pyContains] at hp
  | jbool b => simp [pyContains] at hp
  | jint n => simp [pyContains] at hp
  | jfloat s => simp [pyContains] at hp
  | jstr s =>
    simp [pyContains] at hp
    simp [repairDottedGo, hj, pyContains, hp]
  | jarr xs =>
    simp only [pyContains, Except.ok.injEq] at hp
    simp [repairDottedGo, hj, pyContains, hp]

theorem kwPreStep_frame (o o1 : JObj) (d : Bool)
    (h : kwPreStep o = .ok (o1, d)) (k : String)
    (hk : k ≠ "keyword_analysis") : jget o1 k = jget o k := by
  rw [kwPreStep.eq_def] at h
  split at h
  · injection h with h
    injection h with h1 h2
    subst h1
    rfl
  · split at h
    · exact Except.noConfusion h
    · injection h with h
      injection h with h1 h2
      subst h1
      rfl
    · split at h
      · injection h with h
        injection h with h1 h2
        subst h1
        exact jget_jset_ne _ _ _ _ (Ne.symm hk)
      · injection h with h
        injection h with h1 h2
        subst h1
        rfl

theorem repairPass_frame (o o2 : JObj) (h : repairPass o = .ok o2)
    (k : String) (hk : k ≠ "keyword_analysis")
    (hck : containsKey o k = true) : jget o2 k = jget o k := by
  unfold repairPass at h
  cases hpre : kwPreStep o with
  | error e => rw [hpre] at h; exact Except.noConfusion h
  | ok x =>
    obtain ⟨o1, d⟩ := x
    rw [hpre] at h
    replace h : List.foldlM repairKey o1
        (missingTopKeys o ++ (if d then [dottedKey] else [])) = .ok o2 := h
    have hT : ∀ m ∈ missingTopKeys o ++ (if d then [dottedKey] else []),
        touchedKey m ≠ k := by
      intro m hm
      rcases List.mem_append.mp hm with hm1 | hm2
      · have hmreq := (List.mem_filter.mp hm1).1
        have hmmiss := (List.mem_filter.mp hm1).2
        have hmd : m ≠ dottedKey := req_ne_dotted m hmreq
        have hmk : m ≠ k := by
          intro he
          subst he
          simp [hck] at hmmiss
        simpa [touchedKey, hmd] using hmk
      · cases d with
        | false => simp at hm2
        | true =>
          have hmd : m = dottedKey := by simpa using hm2
          subst hmd
          simpa [touchedKey] using Ne.symm hk
    rw [fold_frame _ o1 o2 k h hT]
    exact kwPreStep_frame o o1 d hpre k hk

/-- Claim C1 (amended): for every raw completion text whose brace-delimited
candidate parses as a JSON object in which `keyword_analysis`, if present,
is itself an object, the Normalizer returns an object containing all eight
required top-level fields and the nested `missing_jd_keywords` entry;
every field the input omitted is populated with its correctly-typed
default, and `match_score` ends up an integer or the `"N/A"` sentinel.
(Fields the input supplied with a wrong type, other than `match_score`,
pass through unrepaired — see the counterexample.) -/
theorem C1_required_fields (parse : String → Option JObj) (t c : String)
    (o : JObj) (hc : extract_json_candidate t = some c)
    (hp : parse c = some o) (hkw : kwOk o) :
    ∃ o2, process_response parse t = .ok o2 ∧
      (∀ k ∈ requiredKeys, containsKey o2 k = true) ∧
      kwRepaired o2 ∧ scoreRepaired o2 ∧
      (∀ k ∈ requiredKeys, containsKey o k = false →
        jget o2 k = some (defaultFor k)) := by
  obtain ⟨o2, hn, h1, h2, h3, h4⟩ := normalizeReply_total o hkw
  refine ⟨o2, ?_, h1, h2, h3, h4⟩
  simp [process_response, hc, hp, hn]

theorem C1_required_fields_witness :
    ∃ o2, process_response jsonLoadsObj "\x7b\"strengths\": 5\x7d" = .ok o2 ∧
      (∀ k ∈ requiredKeys, containsKey o2 k = true) ∧
      kwRepaired o2 ∧ scoreRepaired o2 ∧
      (∀ k ∈ requiredKeys,
        containsKey [("strengths", JValue.jint 5)] k = false →
        jget o2 k = some (defaultFor k)) :=
  C1_required_fields jsonLoadsObj "\x7b\"strengths\": 5\x7d"
    "\x7b\"strengths\": 5\x7d" [("strengths", JValue.jint 5)]
    (by rfl) (by rfl) (Or.inl (by rfl))

set_option maxRecDepth 16384 in
/-- Claim C1 counterexample: a reply supplying all eight fields but with
`strengths` mistyped as a string comes back from the Normalizer with
`strengths` still a string — the output does not carry every field with
its correct type. -/
theorem C1_required_fields_cex :
    process_response jsonLoadsObj "\x7b\"match_score\": 50, \"score_rationale\": \"ok\", \"key_qualifications_match\": \"ok\", \"missing_skills_requirements\": [], \"strengths\": \"Python\", \"areas_for_improvement\": [], \"suggested_resume_improvements\": [], \"keyword_analysis\": \x7b\"missing_jd_keywords\": []\x7d\x7d"
      = .ok [("match_score", JValue.jint 50),
             ("score_rationale", JValue.jstr "ok"),
             ("key_qualifications_match", JValue.jstr "ok"),
             ("missing_skills_requirements", JValue.jarr []),
             ("strengths", JValue.jstr "Python"),
             ("areas_for_improvement", JValue.jarr []),
             ("suggested_resume_improvements", JValue.jarr []),
             ("keyword_analysis",
               JValue.jobj [("missing_jd_keywords", JValue.jarr [])])] ∧
    wellTypedResult
      [("match_score", JValue.jint 50),
       ("score_rationale", JValue.jstr "ok"),
       ("key_qualifications_match", JValue.jstr "ok"),
       ("missing_skills_requirements", JValue.jarr []),
       ("strengths", JValue.jstr "Python"),
       ("areas_for_improvement", JValue.jarr []),
       ("suggested_resume_improvements", JValue.jarr []),
       ("keyword_analysis",
         JValue.jobj [("missing_jd_keywords", JValue.jarr [])])] = false :=
  ⟨by rfl, by rfl⟩

/-- Claim C2 (amended): when `match_score` is present but not a Python
integer, the type-check step replaces it with the sentinel string `"N/A"`
(neither coercing nor rejecting the result), leaves `match_score`'s
pre-check value otherwise untouched by the repair pass, and changes no
other field of the repaired object. -/
theorem C2_score_sentinel (o : JObj) (v : JValue) (o2 : JObj)
    (hv : jget o "match_score" = some v) (hnum : isPyInt v = false)
    (hrp : repairPass o = .ok o2) :
    normalizeReply o = .ok (jset o2 "match_score" (.jstr "N/A")) ∧
    jget o2 "match_score" = some v ∧
    (∀ k, k ≠ "match_score" →
      jget (jset o2 "match_score" (.jstr "N/A")) k = jget o2 k) := by
  have hck : containsKey o "match_score" = true := by simp [containsKey, hv]
  have h2 : jget o2 "match_score" = some v :=
    (repairPass_frame o o2 hrp "match_score" (by decide) hck).trans hv
  have hfs : fixScore o2 = jset o2 "match_score" (.jstr "N/A") := by
    simp [fixScore, h2, hnum]
  refine ⟨?_, h2, fun k hk => jget_jset_ne _ _ _ _ (Ne.symm hk)⟩
  simp [normalizeReply, hrp, hfs, Except.map]

theorem C2_score_sentinel_witness :
    normalizeReply [("match_score", JValue.jstr "85")] =
      .ok (jset [("match_score", JValue.jstr "85"),
                 ("score_rationale", JValue.jstr "N/A"),
                 ("key_qualifications_match", JValue.jstr "N/A"),
                 ("missing_skills_requirements", JValue.jarr []),
                 ("strengths", JValue.jarr []),
                 ("areas_for_improvement", JValue.jarr []),
                 ("suggested_resume_improvements", JValue.jarr []),
                 ("keyword_analysis",
                   JValue.jobj [("missing_jd_keywords", JValue.jarr [])])]
            "match_score" (.jstr "N/A")) ∧
    jget [("match_score", JValue.jstr "85"),
          ("score_rationale", JValue.jstr "N/A"),
          ("key_qualifications_match", JValue.jstr "N/A"),
          ("missing_skills_requirements", JValue.jarr []),
          ("strengths", JValue.jarr []),
          ("areas_for_improvement", JValue.jarr []),
          ("suggested_resume_improvements", JValue.jarr []),
          ("keyword_analysis",
            JValue.jobj [("missing_jd_keywords", JValue.jarr [])])]
      "match_score" = some (JValue.jstr "85") ∧
    (∀ k, k ≠ "match_score" →
      jget (jset [("match_score", JValue.jstr "85"),
                  ("score_rationale", JValue.jstr "N/A"),
                  ("key_qualifications_match", JValue.jstr "N/A"),
                  ("missing_skills_requirements", JValue.jarr []),
                  ("strengths", JValue.jarr []),
                  ("areas_for_improvement", JValue.jarr []),
                  ("suggested_resume_improvements", JValue.jarr []),
                  ("keyword_analysis",
                    JValue.jobj [("missing_jd_keywords", JValue.jarr [])])]
             "match_score" (.jstr "N/A")) k =
      jget [("match_score", JValue.jstr "85"),
            ("score_rationale", JValue.jstr "N/A"),
            ("key_qualifications_match", JValue.jstr "N/A"),
            ("missing_skills_requirements", JValue.jarr []),
            ("strengths", JValue.jarr []),
            ("areas_for_improvement", JValue.jarr []),
            ("suggested_resume_improvements", JValue.jarr []),
            ("keyword_analysis",
              JValue.jobj [("missing_jd_keywords", JValue.jarr [])])] k) :=
  C2_score_sentinel [("match_score", JValue.jstr "85")] (JValue.jstr "85")
    [("match_score", JValue.jstr "85"),
     ("score_rationale", JValue.jstr "N/A"),
     ("key_qualifications_match", JValue.jstr "N/A"),
     ("missing_skills_requirements", JValue.jarr []),
     ("strengths", JValue.jarr []),
     ("areas_for_improvement", JValue.jarr []),
     ("suggested_resume_improvements", JValue.jarr []),
     ("keyword_analysis", JValue.jobj [("missing_jd_keywords", JValue.jarr [])])]
    (by rfl) (by rfl) (by rfl)

/-- Claim C2 counterexample: the sentinel installed for a non-integer
`match_score` is the string `"N/A"`, not `"unknown"` as the claim states. -/
theorem C2_score_sentinel_cex :
    normalizeReply [("match_score", JValue.jstr "85")] =
      .ok [("match_score", JValue.jstr "N/A"),
           ("score_rationale", JValue.jstr "N/A"),
           ("key_qualifications_match", JValue.jstr "N/A"),
           ("missing_skills_requirements", JValue.jarr []),
           ("strengths", JValue.jarr []),
           ("areas_for_improvement", JValue.jarr []),
           ("suggested_resume_improvements", JValue.jarr []),
           ("keyword_analysis",
             JValue.jobj [("missing_jd_keywords", JValue.jarr [])])] ∧
    ("N/A" : String) ≠ "unknown" :=
  ⟨by rfl, by decide⟩

set_option maxRecDepth 16384 in
/-- Claim C3 (amended): on the input `"Sure! \x7b...\x7d"` that supplies
only `match_score` and `strengths`, the Normalizer returns `match_score =
82`, `strengths = ["Python"]`, and the six (not five) missing required
fields populated with their defaults: `"N/A"` for the two text fields,
empty lists for the three list fields, and the empty keyword object. -/
theorem C3_two_field_example :
    process_response jsonLoadsObj
        "Sure! \x7b\"match_score\": 82, \"strengths\": [\"Python\"]\x7d" =
      .ok [("match_score", JValue.jint 82),
           ("strengths", JValue.jarr [JValue.jstr "Python"]),
           ("score_rationale", JValue.jstr "N/A"),
           ("key_qualifications_match", JValue.jstr "N/A"),
           ("missing_skills_requirements", JValue.jarr []),
           ("areas_for_improvement", JValue.jarr []),
           ("suggested_resume_improvements", JValue.jarr []),
           ("keyword_analysis",
             JValue.jobj [("missing_jd_keywords", JValue.jarr [])])] := by
  rfl

set_option maxRecDepth 16384 in
/-- Claim C3 counterexample: the example input omits six of the eight
required fields, not five — six fields receive defaults. -/
theorem C3_two_field_example_cex :
    jsonLoadsObj "\x7b\"match_score\": 82, \"strengths\": [\"Python\"]\x7d" =
      some [("match_score", JValue.jint 82),
            ("strengths", JValue.jarr [JValue.jstr "Python"])] ∧
    (requiredKeys.filter fun k =>
      ! containsKey [("match_score", JValue.jint 82),
                     ("strengths", JValue.jarr [JValue.jstr "Python"])] k).length
      = 6 ∧ (6 : Nat) ≠ 5 :=
  ⟨by rfl, by rfl, by decide⟩

/-- Claim C9 (amended): a non-object `keyword_analysis` makes the whole
reply be discarded — the membership test raises on numbers, booleans and
null, and the repair assignment raises on lists and strings that do not
contain `"missing_jd_keywords"` — EXCEPT when the non-object value happens
to pass the membership test (a list with the string `"missing_jd_keywords"`
as an element, or a string containing it as a substring): then the reply is
returned with the non-object value untouched. -/
theorem C9_keyword_nonobject (o : JObj) (v : JValue)
    (hj : jget o "keyword_analysis" = some v)
    (hobj : ∀ inner, v ≠ .jobj inner) :
    (pyContains "missing_jd_keywords" v = .error () →
      normalizeReply o = .error ()) ∧
    (pyContains "missing_jd_keywords" v = .ok false →
      normalizeReply o = .error ()) ∧
    (pyContains "missing_jd_keywords" v = .ok true →
      ∃ o2, normalizeReply o = .ok o2 ∧
        jget o2 "keyword_analysis" = some v) := by
  have hknmem : "keyword_analysis" ∉ missingTopKeys o := by
    intro hm
    have hmiss := (List.mem_filter.mp hm).2
    simp [containsKey, hj] at hmiss
  have hdnmem : dottedKey ∉ missingTopKeys o := fun hm =>
    req_ne_dotted _ (List.mem_filter.mp hm).1 rfl
  have hT : ∀ m ∈ missingTopKeys o, touchedKey m ≠ "keyword_analysis" := by
    intro m hm
    have hmd : m ≠ dottedKey := req_ne_dotted m (List.mem_filter.mp hm).1
    rw [touchedKey, if_neg hmd]
    exact fun he => hknmem (he ▸ hm)
  refine ⟨fun hp => ?_, fun hp => ?_, fun hp => ?_⟩
  · have hpre := kwPre_err o v hj hp
    have hrp : repairPass o = .error () := by
      unfold repairPass
      rw [hpre]
      rfl
    simp [normalizeReply, hrp, Except.map]
  · have hpre := kwPre_catch o v hj hp hobj
    obtain ⟨o1, hfold1⟩ := fold_ok_plain (missingTopKeys o) o hdnmem
    have hgo1 : jget o1 "keyword_analysis" = some v := by
      rw [fold_frame _ o o1 _ hfold1 hT]
      exact hj
    have hck1 : containsKey o1 "keyword_analysis" = true := by
      simp [containsKey, hgo1]
    have hrd : repairKey o1 dottedKey = .error () := by
      rw [repairKey, if_pos rfl]
      unfold repairDotted
      rw [if_pos hck1]
      exact repairDottedGo_catch o1 v hgo1 hp hobj
    have hfold : List.foldlM repairKey o (missingTopKeys o ++ [dottedKey]) =
        .error () := by
      rw [foldlM_append_except, hfold1]
      show List.foldlM repairKey o1 [dottedKey] = .error ()
      rw [List.foldlM_cons, hrd]
      rfl
    have hrp : repairPass o = .error () := by
      unfold repairPass
      rw [hpre]
      show List.foldlM repairKey o
        (missingTopKeys o ++ (if (true : Bool) then [dottedKey] else [])) =
        .error ()
      exact hfold
    simp [normalizeReply, hrp, Except.map]
  · have hpre := kwPre_true o v hj hp
    obtain ⟨o1, hfold1⟩ := fold_ok_plain (missingTopKeys o) o hdnmem
    have hgo1 : jget o1 "keyword_analysis" = some v := by
      rw [fold_frame _ o o1 _ hfold1 hT]
      exact hj
    have hrp : repairPass o = .ok o1 := by
      unfold repairPass
      rw [hpre]
      show List.foldlM repairKey o
        (missingTopKeys o ++ (if (false : Bool) then [dottedKey] else [])) =
        .ok o1
      rw [show (missingTopKeys o ++ (if (false : Bool) then [dottedKey] else []))
          = missingTopKeys o from List.append_nil _]
      exact hfold1
    refine ⟨fixScore o1, by simp [normalizeReply, hrp, Except.map], ?_⟩
    rw [fixScore_frame o1 _ (by decide)]
    exact hgo1

theorem C9_keyword_nonobject_witness :
    normalizeReply [("keyword_analysis", JValue.jarr []),
                    ("match_score", JValue.jint 5)] = .error () ∧
    ∃ o2, normalizeReply [("keyword_analysis",
        JValue.jarr [JValue.jstr "missing_jd_keywords"]),
        ("match_score", JValue.jint 5)] = .ok o2 ∧
      jget o2 "keyword_analysis" =
        some (JValue.jarr [JValue.jstr "missing_jd_keywords"]) :=
  ⟨(C9_keyword_nonobject
      [("keyword_analysis", JValue.jarr []), ("match_score", JValue.jint 5)]
      (JValue.jarr []) (by rfl) (fun inner h => JValue.noConfusion h)).2.1
      (by rfl),
   (C9_keyword_nonobject
      [("keyword_analysis", JValue.jarr [JValue.jstr "missing_jd_keywords"]),
       ("match_score", JValue.jint 5)]
      (JValue.jarr [JValue.jstr "missing_jd_keywords"]) (by rfl)
      (fun inner h => JValue.noConfusion h)).2.2 (by rfl)⟩

set_option maxRecDepth 16384 in
/-- Claim C9 counterexample: with every other field present and well
typed and `keyword_analysis` the (non-object) list
`["missing_jd_keywords"]`, `analyze_resume_groq` returns a result — the
reply is NOT discarded as a processing failure. -/
theorem C9_keyword_nonobject_cex :
    (analyze_resume_groq jsonLoadsObj true
      (fun _ => some "\x7b\"match_score\": 50, \"score_rationale\": \"ok\", \"key_qualifications_match\": \"ok\", \"missing_skills_requirements\": [], \"strengths\": [\"Python\"], \"areas_for_improvement\": [], \"suggested_resume_improvements\": [], \"keyword_analysis\": [\"missing_jd_keywords\"]\x7d")
      (String.mk (List.replicate 150 'a'))
      (String.mk (List.replicate 100 'b'))).1.toOption =
    some
      [("match_score", JValue.jint 50), ("score_rationale", JValue.jstr "ok"),
       ("key_qualifications_match", JValue.jstr "ok"),
       ("missing_skills_requirements", JValue.jarr []),
       ("strengths", JValue.jarr [JValue.jstr "Python"]),
       ("areas_for_improvement", JValue.jarr []),
       ("suggested_resume_improvements", JValue.jarr []),
       ("keyword_analysis",
         JValue.jarr [JValue.jstr "missing_jd_keywords"])] ∧
    (some
      [("match_score", JValue.jint 50), ("score_rationale", JValue.jstr "ok"),
       ("key_qualifications_match", JValue.jstr "ok"),
       ("missing_skills_requirements", JValue.jarr []),
       ("strengths", JValue.jarr [JValue.jstr "Python"]),
       ("areas_for_improvement", JValue.jarr []),
       ("suggested_resume_improvements", JValue.jarr []),
       ("keyword_analysis",
         JValue.jarr [JValue.jstr "missing_jd_keywords"])] :
      Option JObj) ≠ none :=
  ⟨by rfl, by simp⟩

/-- Claim C6: a structurally parseable PDF whose every page yields zero
characters of text is the `ExtractionEmpty` outcome; a PDF that cannot be
parsed at all is the distinct `ExtractionError` outcome; and neither of
those outcomes is a success carrying a string (in particular not an empty
string). -/
theorem C6_extraction_failures (ps : List PageRead)
    (h : ∀ p ∈ ps, pageEmpty p = true) :
    extract_text_from_pdf (.pages ps) = .extractionEmpty ∧
    extract_text_from_pdf .unreadable = .extractionError ∧
    ExtractResult.extractionEmpty ≠ ExtractResult.extractionError ∧
    (∀ s, ExtractResult.extractionEmpty ≠ .ok s ∧
      ExtractResult.extractionError ≠ .ok s) := by
  refine ⟨?_, rfl, by decide,
    fun s => ⟨fun he => ExtractResult.noConfusion he,
              fun he => ExtractResult.noConfusion he⟩⟩
  have hfold : ∀ (ps' : List PageRead) (acc : String),
      (∀ p ∈ ps', pageEmpty p = true) →
      ps'.foldl (fun acc p =>
        match p with
        | .text t => if t = "" then acc else acc ++ t ++ "\n"
        | .fail => acc) acc = acc := by
    intro ps'
    induction ps' with
    | nil => intro acc _; rfl
    | cons p ps' ih =>
      intro acc hall
      rw [List.foldl_cons]
      have hp := hall p (List.mem_cons_self _ _)
      cases p with
      | fail => exact ih acc fun q hq => hall q (List.mem_cons_of_mem _ hq)
      | text t =>
        have ht : t = "" := by simpa [pageEmpty] using hp
        subst ht
        simpa using ih acc fun q hq => hall q (List.mem_cons_of_mem _ hq)
  simp [extract_text_from_pdf, hfold ps "" h]

theorem C6_extraction_failures_witness :
    extract_text_from_pdf (.pages [PageRead.text "", PageRead.fail]) =
      .extractionEmpty ∧
    extract_text_from_pdf .unreadable = .extractionError :=
  ⟨(C6_extraction_failures [PageRead.text "", PageRead.fail] (by decide)).1,
   (C6_extraction_failures [PageRead.text "", PageRead.fail] (by decide)).2.1⟩

/-- Claim C7: a submission whose job description is shorter than the
minimum length never reaches the network: the submit handler reports the
too-short validation error, attempts no API call, stores no result, and
`analyze_resume_groq` itself returns the validation failure with the
completion oracle never invoked. -/
theorem C7_validation_blocks_call (parse : String → Option JObj)
    (clientOk : Bool) (api : String → Option String) (s : SessionState)
    (uf : Option (String × PdfDoc)) (jd : String)
    (h : jd.length < MIN_JD_LENGTH) :
    (submitStep parse clientOk api s uf jd).apiCalled = false ∧
    UiMsg.jdTooShort ∈ (submitStep parse clientOk api s uf jd).msgs ∧
    (submitStep parse clientOk api s uf jd).state.analysis_result = none ∧
    (∀ resume, analyze_resume_groq parse true api resume jd =
      (.validationError, false)) := by
  have hd : (MIN_JD_LENGTH ≤ jd.length) = False := eq_false (Nat.not_le.mpr h)
  have hl : (jd.length < MIN_JD_LENGTH) = True := eq_true h
  refine ⟨?_, ?_, ?_, fun resume => ?_⟩
  · simp [submitStep, hd]
  · simp [submitStep, hd]
  · simp [submitStep, hd]
  · simp [analyze_resume_groq, hl]

theorem C7_validation_blocks_call_witness :
    (submitStep jsonLoadsObj true (fun _ => none)
      ⟨none, "", none, false, none⟩ none "short").apiCalled = false ∧
    UiMsg.jdTooShort ∈ (submitStep jsonLoadsObj true (fun _ => none)
      ⟨none, "", none, false, none⟩ none "short").msgs ∧
    analyze_resume_groq jsonLoadsObj true (fun _ => none) "r" "short" =
      (.validationError, false) := by
  have hthm := C7_validation_blocks_call jsonLoadsObj true (fun _ => none)
    ⟨none, "", none, false, none⟩ none "short" (by decide)
  exact ⟨hthm.1, hthm.2.1, hthm.2.2.2 "r"⟩

/-- Claim C8: every form submission discards the previously stored
analysis result before running: the whole outcome of `submitStep` is
independent of the prior `analysis_result`, so a failed or blocked new
run can never display a stale result. -/
theorem C8_no_stale_result (parse : String → Option JObj) (clientOk : Bool)
    (api : String → Option String) (s : SessionState)
    (uf : Option (String × PdfDoc)) (jd : String) (x : Option JObj) :
    submitStep parse clientOk api { s with analysis_result := x } uf jd =
    submitStep parse clientOk api { s with analysis_result := none } uf jd := by
  obtain ⟨rt, jdv, ar, areq, lun⟩ := s
  cases uf with
  | none =>
    cases hb : rt.isNone <;> simp [submitStep, handleUpload, hb]
  | some nd =>
    obtain ⟨name, doc⟩ := nd
    cases hb : (!(lun == some name) || rt.isNone) <;>
      simp [submitStep, handleUpload, hb]

/-- Claim C10: submitting with a file whose name equals the previously
uploaded one while extracted text is already stored skips the PDF
extraction entirely: the stored resume text is unchanged and the whole
submission outcome does not depend on the new file's content at all. -/
theorem C10_same_name_skips_extraction (parse : String → Option JObj)
    (clientOk : Bool) (api : String → Option String) (s : SessionState)
    (name : String) (doc doc2 : PdfDoc) (jd t : String)
    (h1 : s.last_upload_name = some name) (h2 : s.resume_text = some t) :
    (submitStep parse clientOk api s (some (name, doc)) jd).state.resume_text
      = some t ∧
    submitStep parse clientOk api s (some (name, doc)) jd =
      submitStep parse clientOk api s (some (name, doc2)) jd := by
  have hu : ∀ d : PdfDoc, handleUpload s (some (name, d)) = (s, []) := by
    intro d
    simp [handleUpload, h1, h2]
  constructor
  · simp only [submitStep, hu doc, h2]
    repeat' split
    all_goals rfl
  · simp [submitStep, hu doc, hu doc2]

theorem C10_same_name_skips_extraction_witness :
    (submitStep jsonLoadsObj true (fun _ => none)
      ⟨some "stored resume text", "", none, false, some "resume.pdf"⟩
      (some ("resume.pdf", PdfDoc.unreadable)) "jd").state.resume_text =
      some "stored resume text" ∧
    submitStep jsonLoadsObj true (fun _ => none)
      ⟨some "stored resume text", "", none, false, some "resume.pdf"⟩
      (some ("resume.pdf", PdfDoc.unreadable)) "jd" =
    submitStep jsonLoadsObj true (fun _ => none)
      ⟨some "stored resume text", "", none, false, some "resume.pdf"⟩
      (some ("resume.pdf", PdfDoc.pages [])) "jd" :=
  C10_same_name_skips_extraction jsonLoadsObj true (fun _ => none)
    ⟨some "stored resume text", "", none, false, some "resume.pdf"⟩
    "resume.pdf" PdfDoc.unreadable (PdfDoc.pages []) "jd"
    "stored resume text" (by rfl) (by rfl)
